import Mathlib

/-!
Verification of the media-session synchronization core of the Live Share SDK:
the `GroupTransportState` transport-state tracker and the
`GroupPlaybackPosition` playback-position ledger.  The repository ships the
behavioural test suite for these classes; the classes themselves are modelled
here from the specification, with every definition checked against the
concrete scenarios the test suite pins down (client counting, latest-wins
replacement, staleness filtering, projection, duration clamping and the
wait-point barrier counter).

Times and positions are modelled as rationals (seconds); the machine's
millisecond timestamps are an encoding detail that does not affect any of the
properties below.
-/

/-- Modelled from the spec: `ExtendedMediaSessionPlaybackState`, the playback
state carried by transport commands and position reports.  The state machine
named in the spec uses `none`, `playing`, `paused`, `suspended`, `waiting`. -/
inductive ExtendedMediaSessionPlaybackState where
  | none
  | playing
  | paused
  | suspended
  | waiting
  deriving DecidableEq, Repr

/-- Modelled from the spec: `CoordinationWaitPoint`, a synchronization-barrier
marker carrying the position at which the group should pause. -/
structure CoordinationWaitPoint where
  position : ℚ
  deriving DecidableEq, Repr

/-- Modelled from the spec: `ITransportState` (a `TransportCommand`), the
authoritative play/pause/seek instruction: playback state, start position in
seconds, issuance timestamp, and the issuing client's id. -/
structure ITransportState where
  playbackState : ExtendedMediaSessionPlaybackState
  startPosition : ℚ
  timestamp : ℚ
  clientId : String
  deriving DecidableEq, Repr

/-- Modelled from the spec: `ICurrentPlaybackPosition` (a `PositionReport`),
one participant's self-observed player status: playback state, optional wait
point, position in seconds, optional track duration, report timestamp, and
the reporting client's id. -/
structure ICurrentPlaybackPosition where
  playbackState : ExtendedMediaSessionPlaybackState
  waitPoint : Option CoordinationWaitPoint
  position : ℚ
  duration : Option ℚ
  timestamp : ℚ
  clientId : String
  deriving DecidableEq, Repr

/-- Modelled from the spec: `GroupTransportState`, the Transport State
Tracker, which holds the single current authoritative transport command. -/
structure GroupTransportState where
  current : ITransportState
  deriving DecidableEq, Repr

/-- Modelled from the spec: the tracker's initial state before any command is
received: `playbackState = none`, `startPosition = 0`. -/
def GroupTransportState.initial : GroupTransportState :=
  ⟨{ playbackState := ExtendedMediaSessionPlaybackState.none
     startPosition := 0
     timestamp := 0
     clientId := "" }⟩

/-- Modelled from the spec: `GroupTransportState.updateState` applies
latest-wins: the command is ignored (silent no-op, no error) when its
`issuedAt` timestamp is ≤ the current command's, and replaces the current
command otherwise. -/
def GroupTransportState.updateState (t : GroupTransportState)
    (command : ITransportState) : GroupTransportState :=
  if command.timestamp ≤ t.current.timestamp then t else ⟨command⟩

/-- Modelled from the spec: `GroupTransportState.projectedPosition` projects
the current command to `now`: while `playing` the start position advances by
the elapsed time since issuance, otherwise it is the start position
unchanged; the result is never negative. -/
def GroupTransportState.projectedPosition (t : GroupTransportState)
    (now : ℚ) : ℚ :=
  let base :=
    if t.current.playbackState = ExtendedMediaSessionPlaybackState.playing then
      t.current.startPosition + (now - t.current.timestamp)
    else
      t.current.startPosition
  max base 0

/-- Modelled from the spec: `GroupPlaybackPosition`, the Playback Position
Ledger: the transport tracker it consults, the local participant's id, the
expected update interval (seconds) supplied at construction, and the latest
retained report per participant. -/
structure GroupPlaybackPosition where
  transport : GroupTransportState
  localClientId : String
  updateInterval : ℚ
  reports : List ICurrentPlaybackPosition
  deriving Repr

/-- Modelled from the spec: a freshly constructed ledger holds no reports. -/
def GroupPlaybackPosition.create (transport : GroupTransportState)
    (localClientId : String) (updateInterval : ℚ) : GroupPlaybackPosition :=
  { transport := transport
    localClientId := localClientId
    updateInterval := updateInterval
    reports := [] }

/-- Modelled from the spec: `totalClients`, the count of distinct reporters
ever accepted (one retained report per reporter, never evicted). -/
def GroupPlaybackPosition.totalClients (g : GroupPlaybackPosition) : Nat :=
  g.reports.length

/-- Modelled from the spec: `localPosition`, the report currently on file for
the ledger's own participant id, or absent if none has been submitted. -/
def GroupPlaybackPosition.localPosition (g : GroupPlaybackPosition) :
    Option ICurrentPlaybackPosition :=
  g.reports.find? (fun p => p.clientId == g.localClientId)

/-- Modelled from the spec: `UpdatePlaybackPosition` applies latest-wins
replacement keyed by the reporter: a first report from an unseen reporter is
appended, a report newer than the one on file replaces it, and any other
report is silently discarded. -/
def GroupPlaybackPosition.UpdatePlaybackPosition (g : GroupPlaybackPosition)
    (r : ICurrentPlaybackPosition) : GroupPlaybackPosition :=
  match g.reports.find? (fun p => p.clientId == r.clientId) with
  | Option.none => { g with reports := g.reports ++ [r] }
  | Option.some old =>
    if old.timestamp < r.timestamp then
      { g with reports :=
          g.reports.map (fun p => if p.clientId == r.clientId then r else p) }
    else
      g

/-- Modelled from the spec: the staleness threshold is 2× the update interval
supplied at construction (a report aged 1× the interval is live, a report
aged 3× is stale). -/
def GroupPlaybackPosition.staleThreshold (g : GroupPlaybackPosition) : ℚ :=
  2 * g.updateInterval

/-- Modelled from the spec: a report is live iff its age `now − reportedAt`
is at most the staleness threshold. -/
def GroupPlaybackPosition.isLive (g : GroupPlaybackPosition) (now : ℚ)
    (r : ICurrentPlaybackPosition) : Bool :=
  decide (now - r.timestamp ≤ g.staleThreshold)

/-- Modelled from the spec: the live reports, i.e. the stored reports that
pass the staleness filter at time `now`. -/
def GroupPlaybackPosition.liveReports (g : GroupPlaybackPosition)
    (now : ℚ) : List ICurrentPlaybackPosition :=
  g.reports.filter (g.isLive now)

/-- Modelled from the spec: the per-report projected position used by
`forEach`: while `playing` the reported position advances by the elapsed time
since the report, clamped to `[0, duration]` when a duration is present;
every other playback state leaves the position unchanged. -/
def projectPosition (now : ℚ) (r : ICurrentPlaybackPosition) : ℚ :=
  if r.playbackState = ExtendedMediaSessionPlaybackState.playing then
    let p := r.position + (now - r.timestamp)
    match r.duration with
    | Option.some d => min (max p 0) d
    | Option.none => p
  else
    r.position

/-- Modelled from the spec: the visit list of `forEach(callback)` — each live
report paired with its projected position, visited once each. -/
def GroupPlaybackPosition.forEachVisits (g : GroupPlaybackPosition)
    (now : ℚ) : List (ICurrentPlaybackPosition × ℚ) :=
  (g.liveReports now).map (fun r => (r, projectPosition now r))

/-- Minimum of a list of rationals, `Option.none` on the empty list. -/
def minQ : List ℚ → Option ℚ
  | [] => Option.none
  | d :: rest =>
    match minQ rest with
    | Option.none => Option.some d
    | Option.some m => Option.some (min d m)

/-- Maximum of a list of rationals, `Option.none` on the empty list. -/
def maxQ : List ℚ → Option ℚ
  | [] => Option.none
  | d :: rest =>
    match maxQ rest with
    | Option.none => Option.some d
    | Option.some m => Option.some (max d m)

/-- Modelled from the spec: the durations carried by the currently-live
reports (reports without a duration contribute nothing). -/
def GroupPlaybackPosition.liveDurations (g : GroupPlaybackPosition)
    (now : ℚ) : List ℚ :=
  (g.liveReports now).filterMap (fun r => r.duration)

/-- Modelled from the spec: `maxPosition`, the transport tracker's projected
position clamped to the minimum duration found among currently-live reports
when at least one live report specifies a duration. -/
def GroupPlaybackPosition.maxPosition (g : GroupPlaybackPosition)
    (now : ℚ) : ℚ :=
  let p := g.transport.projectedPosition now
  match minQ (g.liveDurations now) with
  | Option.none => p
  | Option.some d => min p d

/-- Modelled from the spec: `targetPosition`, the maximum per-participant
projected position across live reports, clamped above by `maxPosition` and by
the minimum reported duration; with no live reports it equals
`maxPosition`. -/
def GroupPlaybackPosition.targetPosition (g : GroupPlaybackPosition)
    (now : ℚ) : ℚ :=
  match maxQ ((g.liveReports now).map (projectPosition now)) with
  | Option.none => g.maxPosition now
  | Option.some m =>
    let clamped := min m (g.maxPosition now)
    match minQ (g.liveDurations now) with
    | Option.none => clamped
    | Option.some d => min clamped d

/-- Count of the reports in a list whose playback state is not `waiting`. -/
def countNotWaiting : List ICurrentPlaybackPosition → Nat
  | [] => 0
  | r :: rest =>
    (if r.playbackState = ExtendedMediaSessionPlaybackState.waiting then 0
     else 1) + countNotWaiting rest

/-- Modelled from the spec: `clientsWaiting`, the barrier-readiness counter:
0 when no live report carries a wait point, and otherwise the number of live
reports whose playback state is not `waiting`. -/
def GroupPlaybackPosition.clientsWaiting (g : GroupPlaybackPosition)
    (now : ℚ) : Nat :=
  let live := g.liveReports now
  if live.any (fun r => r.waitPoint.isSome) then countNotWaiting live
  else 0

/-- A sequence of inbound position reports applied in delivery order. -/
def applyReports (g : GroupPlaybackPosition) :
    List ICurrentPlaybackPosition → GroupPlaybackPosition
  | [] => g
  | r :: rest => applyReports (g.UpdatePlaybackPosition r) rest

/-- Ledger well-formedness: at most one retained report per reporter. -/
def GroupPlaybackPosition.WF (g : GroupPlaybackPosition) : Prop :=
  (g.reports.map (fun r => r.clientId)).Nodup

/-! ### Helper lemmas -/

theorem minQ_isSome {l : List ℚ} (h : l ≠ []) : ∃ m, minQ l = Option.some m := by
  cases l with
  | nil => exact absurd rfl h
  | cons d rest =>
    cases hm : minQ rest with
    | none => exact ⟨d, by simp [minQ, hm]⟩
    | some m => exact ⟨min d m, by simp [minQ, hm]⟩

theorem minQ_eq_none {l : List ℚ} : minQ l = Option.none ↔ l = [] := by
  cases l with
  | nil => simp [minQ]
  | cons d rest =>
    rw [minQ]
    cases hm : minQ rest <;> simp

theorem minQ_spec {l : List ℚ} {m : ℚ} (h : minQ l = Option.some m) :
    m ∈ l ∧ ∀ x ∈ l, m ≤ x := by
  induction l generalizing m with
  | nil => simp [minQ] at h
  | cons d rest ih =>
    rw [minQ] at h
    cases hm : minQ rest with
    | none =>
      rw [hm] at h
      simp at h
      subst h
      have hrest : rest = [] := minQ_eq_none.mp hm
      subst hrest
      simp
    | some y =>
      rw [hm] at h
      simp at h
      refine ⟨?_, ?_⟩
      · rcases min_cases d y with ⟨he, _⟩ | ⟨he, _⟩
        · rw [← h, he]
          exact List.mem_cons_self d rest
        · rw [← h, he]
          exact List.mem_cons_of_mem d (ih hm).1
      · intro x hx
        rcases List.mem_cons.mp hx with hx | hx
        · rw [← h, hx]
          exact min_le_left d y
        · rw [← h]
          exact le_trans (min_le_right d y) ((ih hm).2 x hx)

theorem minQ_eq_of_isMin {l : List ℚ} {d : ℚ} (hmem : d ∈ l)
    (hlb : ∀ x ∈ l, d ≤ x) : minQ l = Option.some d := by
  obtain ⟨m, hm⟩ := minQ_isSome (List.ne_nil_of_mem hmem)
  obtain ⟨h1, h2⟩ := minQ_spec hm
  rw [hm, le_antisymm (h2 d hmem) (hlb m h1)]

theorem maxQ_isSome {l : List ℚ} (h : l ≠ []) : ∃ m, maxQ l = Option.some m := by
  cases l with
  | nil => exact absurd rfl h
  | cons d rest =>
    cases hm : maxQ rest with
    | none => exact ⟨d, by simp [maxQ, hm]⟩
    | some m => exact ⟨max d m, by simp [maxQ, hm]⟩

theorem maxQ_eq_none {l : List ℚ} : maxQ l = Option.none ↔ l = [] := by
  cases l with
  | nil => simp [maxQ]
  | cons d rest =>
    rw [maxQ]
    cases hm : maxQ rest <;> simp

theorem maxQ_spec {l : List ℚ} {m : ℚ} (h : maxQ l = Option.some m) :
    m ∈ l ∧ ∀ x ∈ l, x ≤ m := by
  induction l generalizing m with
  | nil => simp [maxQ] at h
  | cons d rest ih =>
    rw [maxQ] at h
    cases hm : maxQ rest with
    | none =>
      rw [hm] at h
      simp at h
      subst h
      have hrest : rest = [] := maxQ_eq_none.mp hm
      subst hrest
      simp
    | some y =>
      rw [hm] at h
      simp at h
      refine ⟨?_, ?_⟩
      · rcases max_cases d y with ⟨he, _⟩ | ⟨he, _⟩
        · rw [← h, he]
          exact List.mem_cons_self d rest
        · rw [← h, he]
          exact List.mem_cons_of_mem d (ih hm).1
      · intro x hx
        rcases List.mem_cons.mp hx with hx | hx
        · rw [← h, hx]
          exact le_max_left d y
        · rw [← h]
          exact le_trans ((ih hm).2 x hx) (le_max_right d y)

theorem maxQ_eq_of_isMax {l : List ℚ} {d : ℚ} (hmem : d ∈ l)
    (hub : ∀ x ∈ l, x ≤ d) : maxQ l = Option.some d := by
  obtain ⟨m, hm⟩ := maxQ_isSome (List.ne_nil_of_mem hmem)
  obtain ⟨h1, h2⟩ := maxQ_spec hm
  rw [hm, le_antisymm (hub m h1) (h2 d hmem)]

/-! ### Claim theorems -/

/-- C6: for every current transport command and time `now`, the tracker's
`projectedPosition now` returns `startPosition + (now − issuedAt)` when the
command's playback state is `playing` and `startPosition` unchanged
otherwise (never negative in either case, so the unchanged value is returned
whenever it is nonnegative); the result is never negative; and before any
command is received the projection returns 0. -/
theorem projectedPosition_spec (t : GroupTransportState) (now : ℚ) :
    (t.current.playbackState = ExtendedMediaSessionPlaybackState.playing →
      t.projectedPosition now
        = max (t.current.startPosition + (now - t.current.timestamp)) 0)
    ∧ (t.current.playbackState ≠ ExtendedMediaSessionPlaybackState.playing →
      t.projectedPosition now = max t.current.startPosition 0)
    ∧ (t.current.playbackState ≠ ExtendedMediaSessionPlaybackState.playing →
      0 ≤ t.current.startPosition →
      t.projectedPosition now = t.current.startPosition)
    ∧ 0 ≤ t.projectedPosition now
    ∧ GroupTransportState.initial.projectedPosition now = 0 := by
  refine ⟨?_, ?_, ?_, ?_, ?_⟩
  · intro h
    simp [GroupTransportState.projectedPosition, h]
  · intro h
    simp [GroupTransportState.projectedPosition, h]
  · intro h h0
    simp [GroupTransportState.projectedPosition, h, max_eq_left h0]
  · exact le_max_right _ _
  · simp [GroupTransportState.projectedPosition, GroupTransportState.initial]

def witnessCmdPlaying : GroupTransportState :=
  ⟨{ playbackState := ExtendedMediaSessionPlaybackState.playing
     startPosition := 3
     timestamp := 10
     clientId := "a" }⟩

def witnessCmdPaused : GroupTransportState :=
  ⟨{ playbackState := ExtendedMediaSessionPlaybackState.paused
     startPosition := 3
     timestamp := 10
     clientId := "a" }⟩

/-- C6 witness: the projection theorem applied to one playing and one paused
tracker at time 12. -/
theorem projectedPosition_spec_witness :
    witnessCmdPlaying.projectedPosition 12 = max (3 + (12 - 10)) 0
    ∧ witnessCmdPaused.projectedPosition 12 = max 3 0
    ∧ witnessCmdPaused.projectedPosition 12 = 3
    ∧ GroupTransportState.initial.projectedPosition 12 = 0 :=
  ⟨(projectedPosition_spec witnessCmdPlaying 12).1 rfl,
   (projectedPosition_spec witnessCmdPaused 12).2.1 (by decide),
   (projectedPosition_spec witnessCmdPaused 12).2.2.1 (by decide) (by decide),
   (projectedPosition_spec witnessCmdPlaying 12).2.2.2.2⟩

/-- C8: `updateState` is a silent no-op (tracker unchanged, no error — the
operation is a total function) whenever the command's timestamp is ≤ the
current command's timestamp, and replaces the current command otherwise. -/
theorem updateState_latest_wins (t : GroupTransportState)
    (c : ITransportState) :
    (c.timestamp ≤ t.current.timestamp → t.updateState c = t)
    ∧ (t.current.timestamp < c.timestamp → (t.updateState c).current = c) := by
  constructor
  · intro h
    simp [GroupTransportState.updateState, h]
  · intro h
    simp [GroupTransportState.updateState, not_le.mpr h]

/-- C8 witness: a command issued at time 5 is discarded by a tracker whose
current command was issued at 10, and a command issued at 20 replaces it. -/
theorem updateState_latest_wins_witness :
    witnessCmdPlaying.updateState
      { playbackState := ExtendedMediaSessionPlaybackState.paused
        startPosition := 7
        timestamp := 5
        clientId := "b" } = witnessCmdPlaying
    ∧ (witnessCmdPlaying.updateState
        { playbackState := ExtendedMediaSessionPlaybackState.paused
          startPosition := 7
          timestamp := 20
          clientId := "b" }).current
        = { playbackState := ExtendedMediaSessionPlaybackState.paused
            startPosition := 7
            timestamp := 20
            clientId := "b" } :=
  ⟨(updateState_latest_wins witnessCmdPlaying _).1 (by decide),
   (updateState_latest_wins witnessCmdPlaying _).2 (by decide)⟩

theorem countNotWaiting_eq_filter_length (l : List ICurrentPlaybackPosition) :
    countNotWaiting l
      = (l.filter (fun r =>
          decide (r.playbackState ≠ ExtendedMediaSessionPlaybackState.waiting))).length := by
  induction l with
  | nil => rfl
  | cons r rest ih =>
    by_cases h : r.playbackState = ExtendedMediaSessionPlaybackState.waiting <;>
      simp [countNotWaiting, List.filter_cons, h, ih, Nat.add_comm]

/-- C2: if no live report carries a wait point then `clientsWaiting` is 0;
if at least one live report carries a wait point then `clientsWaiting`
equals the number of live reports whose playback state is not `waiting`
(so `suspended`, `playing` and `none` all count as not yet waiting), and it
is 0 exactly when every live participant's state is `waiting`. -/
theorem clientsWaiting_spec (g : GroupPlaybackPosition) (now : ℚ) :
    ((∀ r ∈ g.liveReports now, r.waitPoint = Option.none) →
      g.clientsWaiting now = 0)
    ∧ ((∃ r ∈ g.liveReports now, (r.waitPoint).isSome) →
        (g.clientsWaiting now
          = ((g.liveReports now).filter (fun r =>
              decide (r.playbackState ≠ ExtendedMediaSessionPlaybackState.waiting))).length
         ∧ (g.clientsWaiting now = 0 ↔
            ∀ r ∈ g.liveReports now,
              r.playbackState = ExtendedMediaSessionPlaybackState.waiting))) := by
  constructor
  · intro h
    have hany : (g.liveReports now).any (fun r => (r.waitPoint).isSome) = false := by
      simp only [List.any_eq_false]
      intro r hr
      simp [h r hr]
    simp [GroupPlaybackPosition.clientsWaiting, hany]
  · intro h
    have hany : (g.liveReports now).any (fun r => (r.waitPoint).isSome) = true := by
      simp only [List.any_eq_true]
      obtain ⟨r, hr, hwp⟩ := h
      exact ⟨r, hr, hwp⟩
    have hcount : g.clientsWaiting now
        = ((g.liveReports now).filter (fun r =>
            decide (r.playbackState ≠ ExtendedMediaSessionPlaybackState.waiting))).length := by
      simp [GroupPlaybackPosition.clientsWaiting, hany,
        countNotWaiting_eq_filter_length]
    refine ⟨hcount, ?_⟩
    rw [hcount, List.length_eq_zero, List.filter_eq_nil_iff]
    constructor
    · intro hall r hr
      have := hall r hr
      simpa using this
    · intro hall r hr
      simp [hall r hr]

def wReportNoWp : ICurrentPlaybackPosition :=
  { playbackState := ExtendedMediaSessionPlaybackState.suspended
    waitPoint := Option.none
    position := 2
    duration := Option.none
    timestamp := 0
    clientId := "w1" }

def wReportWp : ICurrentPlaybackPosition :=
  { playbackState := ExtendedMediaSessionPlaybackState.suspended
    waitPoint := Option.some ⟨2⟩
    position := 2
    duration := Option.none
    timestamp := 0
    clientId := "w2" }

def wLedgerNoWp : GroupPlaybackPosition :=
  { transport := GroupTransportState.initial
    localClientId := "w1"
    updateInterval := 1
    reports := [wReportNoWp] }

def wLedgerWp : GroupPlaybackPosition :=
  { transport := GroupTransportState.initial
    localClientId := "w1"
    updateInterval := 1
    reports := [wReportNoWp, wReportWp] }

/-- C2 witness: the barrier-counter theorem applied to a ledger with no wait
point (count 0) and to a ledger with an active wait point. -/
theorem clientsWaiting_spec_witness :
    wLedgerNoWp.clientsWaiting 0 = 0
    ∧ (wLedgerWp.clientsWaiting 0
        = ((wLedgerWp.liveReports 0).filter (fun r =>
            decide (r.playbackState ≠ ExtendedMediaSessionPlaybackState.waiting))).length
       ∧ (wLedgerWp.clientsWaiting 0 = 0 ↔
          ∀ r ∈ wLedgerWp.liveReports 0,
            r.playbackState = ExtendedMediaSessionPlaybackState.waiting)) :=
  ⟨(clientsWaiting_spec wLedgerNoWp 0).1 (by
      norm_num [wLedgerNoWp, wReportNoWp, GroupPlaybackPosition.liveReports,
        GroupPlaybackPosition.isLive, GroupPlaybackPosition.staleThreshold,
        List.filter]),
   (clientsWaiting_spec wLedgerWp 0).2 (by
      norm_num [wLedgerWp, wReportNoWp, wReportWp,
        GroupPlaybackPosition.liveReports, GroupPlaybackPosition.isLive,
        GroupPlaybackPosition.staleThreshold, List.filter])⟩

theorem mem_liveReports {g : GroupPlaybackPosition} {now : ℚ}
    {r : ICurrentPlaybackPosition} :
    r ∈ g.liveReports now
      ↔ r ∈ g.reports ∧ now - r.timestamp ≤ 2 * g.updateInterval := by
  simp [GroupPlaybackPosition.liveReports, List.mem_filter,
    GroupPlaybackPosition.isLive, GroupPlaybackPosition.staleThreshold]

theorem mem_forEachVisits {g : GroupPlaybackPosition} {now : ℚ}
    {r : ICurrentPlaybackPosition} {p : ℚ} :
    (r, p) ∈ g.forEachVisits now
      ↔ r ∈ g.liveReports now ∧ p = projectPosition now r := by
  simp only [GroupPlaybackPosition.forEachVisits, List.mem_map]
  constructor
  · rintro ⟨a, ha, heq⟩
    rw [Prod.mk.injEq] at heq
    obtain ⟨h1, h2⟩ := heq
    subst h1
    exact ⟨ha, h2.symm⟩
  · rintro ⟨hr, rfl⟩
    exact ⟨r, hr, rfl⟩

/-- C3: a stored report is live — visited by `forEach` — exactly when
`now − reportedAt ≤ staleThreshold` with `staleThreshold = 2 × updateInterval`;
in particular, with a positive update interval `I`, a stored report aged
exactly `1×I` is visited and a report aged `3×I` is not. -/
theorem staleness_spec (g : GroupPlaybackPosition) (now : ℚ)
    (r : ICurrentPlaybackPosition) :
    (g.staleThreshold = 2 * g.updateInterval)
    ∧ (r ∈ g.reports →
        ((∃ p, (r, p) ∈ g.forEachVisits now)
          ↔ now - r.timestamp ≤ 2 * g.updateInterval))
    ∧ (0 < g.updateInterval → r ∈ g.reports →
        now - r.timestamp = g.updateInterval →
        (r, projectPosition now r) ∈ g.forEachVisits now)
    ∧ (0 < g.updateInterval → now - r.timestamp = 3 * g.updateInterval →
        ∀ p, (r, p) ∉ g.forEachVisits now) := by
  refine ⟨rfl, ?_, ?_, ?_⟩
  · intro hmem
    constructor
    · rintro ⟨p, hp⟩
      exact (mem_liveReports.mp (mem_forEachVisits.mp hp).1).2
    · intro hage
      exact ⟨projectPosition now r,
        mem_forEachVisits.mpr ⟨mem_liveReports.mpr ⟨hmem, hage⟩, rfl⟩⟩
  · intro hI hmem hage
    refine mem_forEachVisits.mpr ⟨mem_liveReports.mpr ⟨hmem, ?_⟩, rfl⟩
    rw [hage]
    linarith
  · intro hI hage p hp
    have h := (mem_liveReports.mp (mem_forEachVisits.mp hp).1).2
    rw [hage] at h
    linarith

def wStaleLedger : GroupPlaybackPosition :=
  { transport := GroupTransportState.initial
    localClientId := "s1"
    updateInterval := 10
    reports := [{ playbackState := ExtendedMediaSessionPlaybackState.none
                  waitPoint := Option.none
                  position := 0
                  duration := Option.none
                  timestamp := 0
                  clientId := "s1" }] }

/-- C3 witness: with update interval 10, the stored report aged exactly 10 is
visited at time `10` and not visited at time `3 * 10`. -/
theorem staleness_spec_witness :
    ((wStaleLedger.reports.head (by simp [wStaleLedger]),
        projectPosition 10 (wStaleLedger.reports.head (by simp [wStaleLedger])))
      ∈ wStaleLedger.forEachVisits 10)
    ∧ ∀ p, (wStaleLedger.reports.head (by simp [wStaleLedger]), p)
        ∉ wStaleLedger.forEachVisits (3 * 10) :=
  ⟨(staleness_spec wStaleLedger 10 _).2.2.1 (by decide)
      (by simp [wStaleLedger]) (by simp [wStaleLedger]),
   (staleness_spec wStaleLedger (3 * 10) _).2.2.2 (by decide)
      (by simp [wStaleLedger])⟩

theorem liveReports_nodup {g : GroupPlaybackPosition} (now : ℚ)
    (hwf : g.WF) : (g.liveReports now).Nodup :=
  (List.Nodup.of_map _ hwf).filter _

/-- C4: `forEach` visits each live report exactly once (the visit list has no
duplicate entries and contains exactly the live reports), and passes for each
visited report the projected position: `position + (now − reportedAt)` when
the report's state is `playing` — clamped to `[0, duration]` when a duration
is present — and the reported position unchanged for every other state. -/
theorem forEach_spec (g : GroupPlaybackPosition) (now : ℚ)
    (r : ICurrentPlaybackPosition) (p : ℚ) (hwf : g.WF) :
    (g.forEachVisits now).Nodup
    ∧ ((r, p) ∈ g.forEachVisits now
        ↔ r ∈ g.liveReports now ∧ p = projectPosition now r)
    ∧ ((r, p) ∈ g.forEachVisits now →
        ((r.playbackState = ExtendedMediaSessionPlaybackState.playing →
           (∀ d, r.duration = Option.some d →
              p = min (max (r.position + (now - r.timestamp)) 0) d)
           ∧ (r.duration = Option.none →
              p = r.position + (now - r.timestamp)))
         ∧ (r.playbackState ≠ ExtendedMediaSessionPlaybackState.playing →
            p = r.position))) := by
  refine ⟨?_, mem_forEachVisits, ?_⟩
  · exact (liveReports_nodup now hwf).map
      (fun a b hab => congrArg Prod.fst hab)
  · intro hp
    obtain ⟨-, rfl⟩ := mem_forEachVisits.mp hp
    refine ⟨?_, ?_⟩
    · intro hplay
      refine ⟨?_, ?_⟩
      · intro d hd
        simp [projectPosition, hplay, hd]
      · intro hd
        simp [projectPosition, hplay, hd]
    · intro hplay
      simp [projectPosition, hplay]

def wVisitReport : ICurrentPlaybackPosition :=
  { playbackState := ExtendedMediaSessionPlaybackState.playing
    waitPoint := Option.none
    position := 4
    duration := Option.some 100
    timestamp := 0
    clientId := "v1" }

def wVisitLedger : GroupPlaybackPosition :=
  { transport := GroupTransportState.initial
    localClientId := "v1"
    updateInterval := 10
    reports := [wVisitReport] }

/-- C4 witness: on a well-formed one-report ledger the playing report is
visited exactly once, with position advanced by the elapsed 5 seconds and
clamped to its duration. -/
theorem forEach_spec_witness :
    (wVisitLedger.forEachVisits 5).Nodup
    ∧ ((wVisitReport, projectPosition 5 wVisitReport)
        ∈ wVisitLedger.forEachVisits 5)
    ∧ projectPosition 5 wVisitReport
        = min (max (wVisitReport.position + (5 - wVisitReport.timestamp)) 0)
            100 := by
  have hwf : wVisitLedger.WF := by
    simp [GroupPlaybackPosition.WF, wVisitLedger]
  have hlive : wVisitReport ∈ wVisitLedger.liveReports 5 :=
    mem_liveReports.mpr ⟨by simp [wVisitLedger],
      by norm_num [wVisitLedger, wVisitReport]⟩
  have h := forEach_spec wVisitLedger 5 wVisitReport
    (projectPosition 5 wVisitReport) hwf
  have hmem : (wVisitReport, projectPosition 5 wVisitReport)
      ∈ wVisitLedger.forEachVisits 5 := (h.2.1).mpr ⟨hlive, rfl⟩
  exact ⟨h.1, hmem,
    ((h.2.2 hmem).1 (by simp [wVisitReport])).1 100 (by simp [wVisitReport])⟩

/-- C5: `maxPosition` equals the transport tracker's projected position
clamped to the minimum duration present among currently-live reports (when at
least one live report specifies a duration); with no reports and no transport
command it is 0; and when the transport projection reaches a minimum reported
duration of `1/2` it equals `1/2` exactly. -/
theorem maxPosition_spec (g : GroupPlaybackPosition) (now : ℚ) (d : ℚ) :
    (g.liveDurations now = [] →
      g.maxPosition now = g.transport.projectedPosition now)
    ∧ (d ∈ g.liveDurations now → (∀ x ∈ g.liveDurations now, d ≤ x) →
        g.maxPosition now = min (g.transport.projectedPosition now) d)
    ∧ ((GroupPlaybackPosition.create GroupTransportState.initial
          g.localClientId g.updateInterval).maxPosition now = 0)
    ∧ (mkRat 1 2 ∈ g.liveDurations now →
        (∀ x ∈ g.liveDurations now, mkRat 1 2 ≤ x) →
        mkRat 1 2 ≤ g.transport.projectedPosition now →
        g.maxPosition now = mkRat 1 2) := by
  have hmin : ∀ e : ℚ, e ∈ g.liveDurations now →
      (∀ x ∈ g.liveDurations now, e ≤ x) →
      g.maxPosition now = min (g.transport.projectedPosition now) e := by
    intro e hmem hlb
    rw [GroupPlaybackPosition.maxPosition, minQ_eq_of_isMin hmem hlb]
  refine ⟨?_, hmin d, ?_, ?_⟩
  · intro hnil
    rw [GroupPlaybackPosition.maxPosition, hnil]
    rfl
  · simp [GroupPlaybackPosition.maxPosition, GroupPlaybackPosition.create,
      GroupPlaybackPosition.liveDurations, GroupPlaybackPosition.liveReports,
      GroupTransportState.projectedPosition, GroupTransportState.initial,
      minQ]
  · intro hmem hlb hproj
    rw [hmin (mkRat 1 2) hmem hlb, min_eq_right hproj]

def wClampReport : ICurrentPlaybackPosition :=
  { playbackState := ExtendedMediaSessionPlaybackState.playing
    waitPoint := Option.none
    position := 0
    duration := Option.some (mkRat 1 2)
    timestamp := 0
    clientId := "m1" }

def wClampLedger : GroupPlaybackPosition :=
  { transport := ⟨{ playbackState := ExtendedMediaSessionPlaybackState.playing
                    startPosition := 0
                    timestamp := 0
                    clientId := "m1" }⟩
    localClientId := "m1"
    updateInterval := 10
    reports := [wClampReport] }

/-- C5 witness: an empty freshly constructed ledger has `maxPosition 0`, and
with the transport playing for 2 seconds past a live report whose duration is
`1/2`, `maxPosition` is exactly `1/2`. -/
theorem maxPosition_spec_witness :
    ((GroupPlaybackPosition.create GroupTransportState.initial
        wClampLedger.localClientId wClampLedger.updateInterval).maxPosition 2
      = 0)
    ∧ wClampLedger.maxPosition 2 = mkRat 1 2 := by
  have hdur : wClampLedger.liveDurations 2 = [mkRat 1 2] := by
    norm_num [GroupPlaybackPosition.liveDurations,
      GroupPlaybackPosition.liveReports, GroupPlaybackPosition.isLive,
      GroupPlaybackPosition.staleThreshold, wClampLedger, wClampReport,
      List.filter, List.filterMap]
  refine ⟨(maxPosition_spec wClampLedger 2 0).2.2.1, ?_⟩
  refine (maxPosition_spec wClampLedger 2 0).2.2.2 ?_ ?_ ?_
  · rw [hdur]
    exact List.mem_singleton.mpr rfl
  · rw [hdur]
    intro x hx
    rw [List.mem_singleton.mp hx]
  · norm_num [GroupTransportState.projectedPosition, wClampLedger,
      Rat.mkRat_eq_div]

/-- C1: `targetPosition` equals the maximum per-participant projected
position over all live reports (projected as in `forEach`), clamped above by
`maxPosition` and by the minimum duration reported among live reports; and
with no live reports `targetPosition` equals `maxPosition`. -/
theorem targetPosition_spec (g : GroupPlaybackPosition) (now : ℚ)
    (m d : ℚ) :
    (g.liveReports now = [] → g.targetPosition now = g.maxPosition now)
    ∧ (m ∈ (g.liveReports now).map (projectPosition now) →
       (∀ x ∈ (g.liveReports now).map (projectPosition now), x ≤ m) →
        ((g.liveDurations now = [] →
            g.targetPosition now = min m (g.maxPosition now))
         ∧ (d ∈ g.liveDurations now → (∀ x ∈ g.liveDurations now, d ≤ x) →
            g.targetPosition now = min (min m (g.maxPosition now)) d))) := by
  constructor
  · intro hnil
    rw [GroupPlaybackPosition.targetPosition, hnil]
    rfl
  · intro hmem hub
    have hmax : maxQ ((g.liveReports now).map (projectPosition now))
        = Option.some m := maxQ_eq_of_isMax hmem hub
    constructor
    · intro hnil
      rw [GroupPlaybackPosition.targetPosition, hmax,
        minQ_eq_none.mpr hnil]
    · intro hdmem hdlb
      rw [GroupPlaybackPosition.targetPosition, hmax,
        minQ_eq_of_isMin hdmem hdlb]

def wTargetA : ICurrentPlaybackPosition :=
  { playbackState := ExtendedMediaSessionPlaybackState.playing
    waitPoint := Option.none
    position := 0
    duration := Option.none
    timestamp := 2
    clientId := "t1" }

def wTargetB : ICurrentPlaybackPosition :=
  { playbackState := ExtendedMediaSessionPlaybackState.playing
    waitPoint := Option.none
    position := 0
    duration := Option.none
    timestamp := 1
    clientId := "t2" }

def wTargetLedger : GroupPlaybackPosition :=
  { transport := ⟨{ playbackState := ExtendedMediaSessionPlaybackState.playing
                    startPosition := 0
                    timestamp := 0
                    clientId := "t1" }⟩
    localClientId := "t1"
    updateInterval := 1000
    reports := [wTargetA, wTargetB] }

def wEmptyLedger : GroupPlaybackPosition :=
  { transport := ⟨{ playbackState := ExtendedMediaSessionPlaybackState.playing
                    startPosition := 0
                    timestamp := 0
                    clientId := "t1" }⟩
    localClientId := "t1"
    updateInterval := 1000
    reports := [] }

/-- C1 witness: with no live reports the target is `maxPosition`; with two
playing reports (projected to 0 and 1 at time 2) and no durations the target
is the most advanced projection clamped by `maxPosition`. -/
theorem targetPosition_spec_witness :
    wEmptyLedger.targetPosition 2 = wEmptyLedger.maxPosition 2
    ∧ wTargetLedger.targetPosition 2
        = min (projectPosition 2 wTargetB) (wTargetLedger.maxPosition 2) := by
  have hlive : wTargetLedger.liveReports 2 = [wTargetA, wTargetB] := by
    norm_num [GroupPlaybackPosition.liveReports, GroupPlaybackPosition.isLive,
      GroupPlaybackPosition.staleThreshold, wTargetLedger, wTargetA, wTargetB,
      List.filter]
  have hproj : projectPosition 2 wTargetA ≤ projectPosition 2 wTargetB := by
    norm_num [projectPosition, wTargetA, wTargetB]
  refine ⟨(targetPosition_spec wEmptyLedger 2 0 0).1
      (by simp [GroupPlaybackPosition.liveReports, wEmptyLedger]), ?_⟩
  refine ((targetPosition_spec wTargetLedger 2 (projectPosition 2 wTargetB)
      0).2 ?_ ?_).1 ?_
  · rw [hlive]
    simp
  · rw [hlive]
    intro x hx
    rcases List.mem_map.mp hx with ⟨a, ha, rfl⟩
    rcases List.mem_cons.mp ha with rfl | ha
    · exact hproj
    · rw [List.mem_singleton.mp ha]
  · rw [GroupPlaybackPosition.liveDurations, hlive]
    simp [wTargetA, wTargetB]

theorem find?_replace (l : List ICurrentPlaybackPosition)
    (r : ICurrentPlaybackPosition)
    (h : (l.find? (fun p => p.clientId == r.clientId)).isSome) :
    (l.map (fun p => if p.clientId == r.clientId then r else p)).find?
        (fun p => p.clientId == r.clientId) = Option.some r := by
  induction l with
  | nil => simp [List.find?] at h
  | cons a rest ih =>
    by_cases ha : (a.clientId == r.clientId) = true
    · simp only [List.map_cons, if_pos ha]
      exact List.find?_cons_of_pos _ (by simp)
    · simp only [List.map_cons, if_neg ha]
      rw [List.find?_cons_of_neg (p := fun (q : ICurrentPlaybackPosition) => q.clientId == r.clientId) _ ha]
      apply ih
      rwa [List.find?_cons_of_neg (p := fun (q : ICurrentPlaybackPosition) => q.clientId == r.clientId) _ ha]
        at h

theorem find?_replace_other (l : List ICurrentPlaybackPosition)
    (r : ICurrentPlaybackPosition) (c : String) (hne : r.clientId ≠ c) :
    (l.map (fun p => if p.clientId == r.clientId then r else p)).find?
        (fun p => p.clientId == c)
      = l.find? (fun p => p.clientId == c) := by
  induction l with
  | nil => rfl
  | cons a rest ih =>
    by_cases ha : (a.clientId == r.clientId) = true
    · have hac : a.clientId = r.clientId := by simpa using ha
      have h1 : ((a.clientId == c) = true) = False := by
        simp [hac, hne]
      have h2 : ((r.clientId == c) = true) = False := by
        simp [hne]
      simp only [List.map_cons, if_pos ha]
      rw [List.find?_cons_of_neg _ (by simp [h2]),
        List.find?_cons_of_neg _ (by simp [h1])]
      exact ih
    · simp only [List.map_cons, if_neg ha]
      by_cases hc : (a.clientId == c) = true
      · rw [List.find?_cons_of_pos (p := fun (q : ICurrentPlaybackPosition) => q.clientId == c) _ hc,
          List.find?_cons_of_pos (p := fun (q : ICurrentPlaybackPosition) => q.clientId == c) _ hc]
      · rw [List.find?_cons_of_neg (p := fun (q : ICurrentPlaybackPosition) => q.clientId == c) _ hc,
          List.find?_cons_of_neg (p := fun (q : ICurrentPlaybackPosition) => q.clientId == c) _ hc]
        exact ih

theorem map_clientId_replace (l : List ICurrentPlaybackPosition)
    (r : ICurrentPlaybackPosition) :
    ((l.map (fun p => if p.clientId == r.clientId then r else p)).map
        (fun p => p.clientId))
      = l.map (fun p => p.clientId) := by
  rw [List.map_map]
  apply List.map_congr_left
  intro a ha
  by_cases h : (a.clientId == r.clientId) = true
  · simp only [Function.comp_apply, if_pos h]
    exact (beq_iff_eq.mp h).symm
  · simp only [Function.comp_apply, if_neg h]

/-- C7: `UpdatePlaybackPosition` applies latest-wins replacement keyed by the
reporter: a report older than the one on file for the same reporter is
silently discarded and leaves the ledger entirely unchanged, while a report
newer than the one on file replaces the stored report without changing
`totalClients` (the operation is a total function: no error in either
case). -/
theorem UpdatePlaybackPosition_latest_wins (g : GroupPlaybackPosition)
    (r old : ICurrentPlaybackPosition)
    (hold : g.reports.find? (fun p => p.clientId == r.clientId)
      = Option.some old) :
    (r.timestamp < old.timestamp → g.UpdatePlaybackPosition r = g)
    ∧ (old.timestamp < r.timestamp →
        ((g.UpdatePlaybackPosition r).reports.find?
            (fun p => p.clientId == r.clientId) = Option.some r
         ∧ (g.UpdatePlaybackPosition r).totalClients = g.totalClients)) := by
  constructor
  · intro hlt
    rw [GroupPlaybackPosition.UpdatePlaybackPosition, hold]
    simp [not_lt.mpr (le_of_lt hlt)]
  · intro hlt
    rw [GroupPlaybackPosition.UpdatePlaybackPosition, hold]
    simp only [if_pos hlt]
    constructor
    · exact find?_replace _ _ (by simp [hold])
    · simp [GroupPlaybackPosition.totalClients]

def wOldReport : ICurrentPlaybackPosition :=
  { playbackState := ExtendedMediaSessionPlaybackState.none
    waitPoint := Option.none
    position := 1
    duration := Option.none
    timestamp := 50
    clientId := "u1" }

def wUpdateLedger : GroupPlaybackPosition :=
  { transport := GroupTransportState.initial
    localClientId := "u1"
    updateInterval := 10
    reports := [wOldReport] }

def wStaleUpdate : ICurrentPlaybackPosition :=
  { playbackState := ExtendedMediaSessionPlaybackState.none
    waitPoint := Option.none
    position := 2
    duration := Option.none
    timestamp := 40
    clientId := "u1" }

def wFreshUpdate : ICurrentPlaybackPosition :=
  { playbackState := ExtendedMediaSessionPlaybackState.none
    waitPoint := Option.none
    position := 2
    duration := Option.none
    timestamp := 60
    clientId := "u1" }

/-- C7 witness: a report timestamped 40 is discarded against the stored
report timestamped 50, while a report timestamped 60 replaces it with
`totalClients` unchanged. -/
theorem UpdatePlaybackPosition_latest_wins_witness :
    wUpdateLedger.UpdatePlaybackPosition wStaleUpdate = wUpdateLedger
    ∧ ((wUpdateLedger.UpdatePlaybackPosition wFreshUpdate).reports.find?
        (fun p => p.clientId == wFreshUpdate.clientId)
          = Option.some wFreshUpdate
       ∧ (wUpdateLedger.UpdatePlaybackPosition wFreshUpdate).totalClients
          = wUpdateLedger.totalClients) :=
  ⟨(UpdatePlaybackPosition_latest_wins wUpdateLedger wStaleUpdate wOldReport
      (by simp [wUpdateLedger, wOldReport, wStaleUpdate, List.find?])).1
      (by decide),
   (UpdatePlaybackPosition_latest_wins wUpdateLedger wFreshUpdate wOldReport
      (by simp [wUpdateLedger, wOldReport, wFreshUpdate, List.find?])).2
      (by decide)⟩

/-- C10: `localPosition` is absent on a freshly constructed ledger and
thereafter always equals the latest accepted report from the ledger's own
participant id: an accepted report from the local participant becomes the
new `localPosition`, a rejected (older or equal-timestamp) one leaves it
unchanged, and an update whose reporter is a different participant leaves
`localPosition` unchanged. -/
theorem localPosition_spec (t : GroupTransportState) (c : String) (i : ℚ)
    (g : GroupPlaybackPosition) (r old : ICurrentPlaybackPosition) :
    (GroupPlaybackPosition.create t c i).localPosition = Option.none
    ∧ (r.clientId ≠ g.localClientId →
        (g.UpdatePlaybackPosition r).localPosition = g.localPosition)
    ∧ (r.clientId = g.localClientId →
        ((g.reports.find? (fun p => p.clientId == r.clientId) = Option.none →
            (g.UpdatePlaybackPosition r).localPosition = Option.some r)
         ∧ (g.reports.find? (fun p => p.clientId == r.clientId)
              = Option.some old → old.timestamp < r.timestamp →
            (g.UpdatePlaybackPosition r).localPosition = Option.some r)
         ∧ (g.reports.find? (fun p => p.clientId == r.clientId)
              = Option.some old → r.timestamp ≤ old.timestamp →
            (g.UpdatePlaybackPosition r).localPosition = g.localPosition))) := by
  refine ⟨rfl, ?_, ?_⟩
  · intro hne
    rw [GroupPlaybackPosition.UpdatePlaybackPosition]
    cases hf : g.reports.find? (fun p => p.clientId == r.clientId) with
    | none =>
      simp only [GroupPlaybackPosition.localPosition, List.find?_append]
      have hsing : List.find?
          (fun p => p.clientId == g.localClientId) [r] = Option.none := by
        have hb : (r.clientId == g.localClientId) = false :=
          beq_eq_false_iff_ne.mpr hne
        simp [List.find?, hb]
      rw [hsing, Option.or_none]
    | some old2 =>
      by_cases hts : old2.timestamp < r.timestamp
      · simp only [if_pos hts, GroupPlaybackPosition.localPosition]
        exact find?_replace_other _ _ _ hne
      · simp only [if_neg hts]
  · intro hc
    refine ⟨?_, ?_, ?_⟩
    · intro hf
      simp only [GroupPlaybackPosition.UpdatePlaybackPosition, hf]
      simp only [GroupPlaybackPosition.localPosition, ← hc,
        List.find?_append, hf, Option.none_or]
      simp [List.find?]
    · intro hf hts
      simp only [GroupPlaybackPosition.UpdatePlaybackPosition, hf, if_pos hts]
      simp only [GroupPlaybackPosition.localPosition, ← hc]
      exact find?_replace _ _ (by simp [hf])
    · intro hf hts
      simp only [GroupPlaybackPosition.UpdatePlaybackPosition, hf,
        if_neg (not_lt.mpr hts)]

def wLocalLedger : GroupPlaybackPosition :=
  { transport := GroupTransportState.initial
    localClientId := "L"
    updateInterval := 10
    reports := [] }

def wLocalReport : ICurrentPlaybackPosition :=
  { playbackState := ExtendedMediaSessionPlaybackState.none
    waitPoint := Option.none
    position := 0
    duration := Option.none
    timestamp := 5
    clientId := "L" }

def wOtherReport : ICurrentPlaybackPosition :=
  { playbackState := ExtendedMediaSessionPlaybackState.none
    waitPoint := Option.none
    position := 0
    duration := Option.none
    timestamp := 5
    clientId := "Z" }

/-- C10 witness: a fresh ledger has no local position, a foreign report
leaves it unchanged, and a first local report becomes `localPosition`. -/
theorem localPosition_spec_witness :
    (GroupPlaybackPosition.create GroupTransportState.initial "L" 10
      ).localPosition = Option.none
    ∧ (wLocalLedger.UpdatePlaybackPosition wOtherReport).localPosition
        = wLocalLedger.localPosition
    ∧ (wLocalLedger.UpdatePlaybackPosition wLocalReport).localPosition
        = Option.some wLocalReport :=
  ⟨(localPosition_spec GroupTransportState.initial "L" 10 wLocalLedger
      wLocalReport wLocalReport).1,
   (localPosition_spec GroupTransportState.initial "L" 10 wLocalLedger
      wOtherReport wOtherReport).2.1 (by decide),
   ((localPosition_spec GroupTransportState.initial "L" 10 wLocalLedger
      wLocalReport wLocalReport).2.2 (by decide)).1 rfl⟩

theorem reports_map_clientId_update (g : GroupPlaybackPosition)
    (r : ICurrentPlaybackPosition) :
    ((g.UpdatePlaybackPosition r).reports.map (fun p => p.clientId))
      = if (g.reports.find? (fun p => p.clientId == r.clientId)).isSome
        then g.reports.map (fun p => p.clientId)
        else g.reports.map (fun p => p.clientId) ++ [r.clientId] := by
  cases hf : g.reports.find? (fun p => p.clientId == r.clientId) with
  | none =>
    simp only [GroupPlaybackPosition.UpdatePlaybackPosition, hf]
    simp
  | some old =>
    simp only [GroupPlaybackPosition.UpdatePlaybackPosition, hf]
    by_cases hts : old.timestamp < r.timestamp
    · simp only [if_pos hts]
      simp [map_clientId_replace]
      intro a ha
      by_cases h : a.clientId = r.clientId
      · rw [if_pos h, h]
      · rw [if_neg h]
    · simp only [if_neg hts]
      simp

theorem clientId_not_mem_of_find?_none {g : GroupPlaybackPosition}
    {r : ICurrentPlaybackPosition}
    (hf : g.reports.find? (fun p => p.clientId == r.clientId)
      = Option.none) :
    r.clientId ∉ g.reports.map (fun p => p.clientId) := by
  intro hmem
  rcases List.mem_map.mp hmem with ⟨a, ha, hac⟩
  have hnone := List.find?_eq_none.mp hf a ha
  simp [hac] at hnone

theorem WF_update (g : GroupPlaybackPosition) (r : ICurrentPlaybackPosition)
    (h : g.WF) : (g.UpdatePlaybackPosition r).WF := by
  unfold GroupPlaybackPosition.WF at *
  rw [reports_map_clientId_update]
  by_cases hf : (g.reports.find? (fun p => p.clientId == r.clientId)).isSome
    = true
  · rwa [if_pos hf]
  · rw [if_neg hf]
    rw [List.nodup_append]
    refine ⟨h, List.nodup_singleton _, fun a ha hb => ?_⟩
    rw [List.mem_singleton] at hb
    subst hb
    exact clientId_not_mem_of_find?_none
      (Option.not_isSome_iff_eq_none.mp hf) ha

theorem toFinset_clientId_update (g : GroupPlaybackPosition)
    (r : ICurrentPlaybackPosition) :
    ((g.UpdatePlaybackPosition r).reports.map (fun p => p.clientId)).toFinset
      = insert r.clientId
          ((g.reports.map (fun p => p.clientId)).toFinset) := by
  rw [reports_map_clientId_update]
  by_cases hf : (g.reports.find? (fun p => p.clientId == r.clientId)).isSome
    = true
  · rw [if_pos hf]
    have hex : r.clientId ∈ g.reports.map (fun p => p.clientId) := by
      rcases Option.isSome_iff_exists.mp hf with ⟨a, ha⟩
      have hmem := List.mem_of_find?_eq_some ha
      have hbeq : a.clientId = r.clientId := by
        simpa using List.find?_some ha
      exact hbeq ▸ List.mem_map_of_mem _ hmem
    rw [Finset.insert_eq_self.mpr (List.mem_toFinset.mpr hex)]
  · rw [if_neg hf]
    ext x
    simp [or_comm]

theorem applyReports_toFinset (rs : List ICurrentPlaybackPosition)
    (g : GroupPlaybackPosition) :
    ((applyReports g rs).reports.map (fun p => p.clientId)).toFinset
      = (g.reports.map (fun p => p.clientId)).toFinset
          ∪ (rs.map (fun x => x.clientId)).toFinset := by
  induction rs generalizing g with
  | nil => simp [applyReports]
  | cons r rest ih =>
    rw [applyReports, ih, toFinset_clientId_update]
    ext x
    simp only [Finset.mem_union, Finset.mem_insert, List.mem_toFinset,
      List.map_cons, List.mem_cons]
    tauto

theorem WF_applyReports (rs : List ICurrentPlaybackPosition)
    (g : GroupPlaybackPosition) (h : g.WF) : (applyReports g rs).WF := by
  induction rs generalizing g with
  | nil => exact h
  | cons r rest ih => exact ih _ (WF_update g r h)

/-- C9: `totalClients` equals the number of distinct reporters from which at
least one report has ever been accepted: it is 0 at construction, increases
by exactly 1 when a report from a previously-unseen reporter is accepted, is
unchanged by reports from known reporters (accepted or rejected), never
decreases under any update, and — being independent of the query time — is
never decremented by a report becoming stale. -/
theorem totalClients_spec (t : GroupTransportState) (c : String) (i : ℚ)
    (g : GroupPlaybackPosition) (r : ICurrentPlaybackPosition)
    (rs : List ICurrentPlaybackPosition) :
    (GroupPlaybackPosition.create t c i).totalClients = 0
    ∧ g.totalClients ≤ (g.UpdatePlaybackPosition r).totalClients
    ∧ (g.reports.find? (fun p => p.clientId == r.clientId) = Option.none →
        (g.UpdatePlaybackPosition r).totalClients = g.totalClients + 1)
    ∧ ((g.reports.find? (fun p => p.clientId == r.clientId)).isSome →
        (g.UpdatePlaybackPosition r).totalClients = g.totalClients)
    ∧ (applyReports (GroupPlaybackPosition.create t c i) rs).totalClients
        = ((rs.map (fun x => x.clientId)).toFinset).card := by
  have hlen : ∀ g' : GroupPlaybackPosition,
      g'.totalClients = (g'.reports.map (fun p => p.clientId)).length := by
    intro g'
    rw [List.length_map]
    rfl
  have hcases := reports_map_clientId_update g r
  refine ⟨rfl, ?_, ?_, ?_, ?_⟩
  · rw [hlen g, hlen (g.UpdatePlaybackPosition r), hcases]
    by_cases hf : (g.reports.find? (fun p => p.clientId == r.clientId)).isSome
      = true
    · rw [if_pos hf]
    · rw [if_neg hf]
      simp
  · intro hf
    rw [hlen g, hlen (g.UpdatePlaybackPosition r), hcases,
      if_neg (by simp [hf])]
    simp
  · intro hf
    rw [hlen g, hlen (g.UpdatePlaybackPosition r), hcases, if_pos hf]
  · have hwf : (applyReports (GroupPlaybackPosition.create t c i) rs).WF :=
      WF_applyReports rs _ (by
        simp [GroupPlaybackPosition.WF, GroupPlaybackPosition.create])
    have hfin := applyReports_toFinset rs (GroupPlaybackPosition.create t c i)
    rw [hlen (applyReports (GroupPlaybackPosition.create t c i) rs),
      ← List.toFinset_card_of_nodup hwf, hfin]
    simp [GroupPlaybackPosition.create]

def wCountKnown : ICurrentPlaybackPosition :=
  { playbackState := ExtendedMediaSessionPlaybackState.none
    waitPoint := Option.none
    position := 0
    duration := Option.none
    timestamp := 5
    clientId := "k1" }

def wCountLedger : GroupPlaybackPosition :=
  { transport := GroupTransportState.initial
    localClientId := "k1"
    updateInterval := 10
    reports := [wCountKnown] }

/-- C9 witness: the client-counting theorem applied with a fresh reporter
(count goes from 1 to 2) and a known reporter (count stays 1). -/
theorem totalClients_spec_witness :
    (GroupPlaybackPosition.create GroupTransportState.initial "k1" 10
      ).totalClients = 0
    ∧ (wCountLedger.UpdatePlaybackPosition
        { playbackState := ExtendedMediaSessionPlaybackState.none
          waitPoint := Option.none
          position := 0
          duration := Option.none
          timestamp := 6
          clientId := "k2" }).totalClients = wCountLedger.totalClients + 1
    ∧ (wCountLedger.UpdatePlaybackPosition
        { playbackState := ExtendedMediaSessionPlaybackState.none
          waitPoint := Option.none
          position := 0
          duration := Option.none
          timestamp := 6
          clientId := "k1" }).totalClients = wCountLedger.totalClients :=
  ⟨(totalClients_spec GroupTransportState.initial "k1" 10 wCountLedger
      wCountKnown []).1,
   (totalClients_spec GroupTransportState.initial "k1" 10 wCountLedger
      _ []).2.2.1 (by simp [wCountLedger, wCountKnown, List.find?]),
   (totalClients_spec GroupTransportState.initial "k1" 10 wCountLedger
      _ []).2.2.2.1 (by simp [wCountLedger, wCountKnown, List.find?])⟩
